import Mathlib

/-!
Verification of the animated-snapshot assembly pipeline of
`custom_components/nea_sg_weather/camera.py` (class `NeaRainCamera`).

Shallow embedding conventions:
* A naive `datetime` is an integer count of microseconds since `datetime.min`
  (so `datetime.min` itself is `0`); a `timedelta` is likewise an integer
  number of microseconds.  Python's `%` on a `timedelta` with a positive
  divisor returns a value in `[0, divisor)`, which matches `Int.emod` for a
  positive divisor.
* Image bytes are `List Nat`.
* Fallible external operations (HTTP response, `Image.open` decoding, the
  host state-store lookup) are environment parameters returning `Option` /
  `Except`; a `none`/`.error` result at a call site that the Python code does
  not wrap in `try` is modelled as an uncaught exception (`RunResult.raised`).
-/

/-- Five minutes in microseconds: the `timedelta(minutes = 5)` of line 133. -/
def bucketTd : Int := 300000000

/-- Fifty minutes in microseconds: the `timedelta(minutes = 50)` of line 142. -/
def lookbackTd : Int := 3000000000

/-- Embedding of `ceil_dt` (camera.py line 108-109): `dt + (datetime.min - dt) % delta`
with `datetime.min = 0` in our encoding. -/
def ceil_dt (dt delta : Int) : Int :=
  dt + (0 - dt) % delta

/-- The `while start < now` loop of lines 143-145, specialised to the 5-minute
step actually passed (`td = timedelta(minutes = 5)`). -/
def tsLoop (now : Int) (start : Int) : List Int :=
  if h : start < now then start :: tsLoop now (start + 300000000) else []
termination_by (now - start).toNat
decreasing_by omega

/-- Lines 141-145: `timestamps` built from `start = now - 50min` stepping by
five minutes while `start < now`. -/
def timestamps (now : Int) : List Int :=
  tsLoop now (now - 3000000000)

lemma tsLoop_step {now start : Int} (h : start < now) :
    tsLoop now start = start :: tsLoop now (start + 300000000) := by
  conv_lhs => unfold tsLoop
  rw [dif_pos h]

lemma tsLoop_stop {now start : Int} (h : ¬ start < now) :
    tsLoop now start = [] := by
  unfold tsLoop
  rw [dif_neg h]

/-- Closed form of the timestamp list: exactly the ten buckets
`now - 50min, now - 45min, …, now - 5min`. -/
lemma timestamps_eq (now : Int) :
    timestamps now =
      [now - 3000000000, now - 2700000000, now - 2400000000,
       now - 2100000000, now - 1800000000, now - 1500000000,
       now - 1200000000, now - 900000000, now - 600000000,
       now - 300000000] := by
  unfold timestamps
  rw [tsLoop_step (by omega), tsLoop_step (by omega), tsLoop_step (by omega),
      tsLoop_step (by omega), tsLoop_step (by omega), tsLoop_step (by omega),
      tsLoop_step (by omega), tsLoop_step (by omega), tsLoop_step (by omega),
      tsLoop_step (by omega), tsLoop_stop (by omega)]
  simp only [List.cons.injEq, and_true, true_and]
  omega

/-- C1: `ceil_dt(t, 5min)` is ≥ t, < t + 5min, aligned to a 5-minute multiple
of the absolute epoch `datetime.min`, and idempotent. -/
theorem ceil_dt_correct (t : Int) :
    t ≤ ceil_dt t bucketTd ∧
    ceil_dt t bucketTd < t + bucketTd ∧
    bucketTd ∣ ceil_dt t bucketTd ∧
    ceil_dt (ceil_dt t bucketTd) bucketTd = ceil_dt t bucketTd := by
  unfold ceil_dt bucketTd
  refine ⟨by omega, by omega, ?_, by omega⟩
  omega

/-- C2: the requested bucket list for a rounded-up `now` has exactly 10
elements `now - 50min, …, now - 5min`, each strictly below `now`, spaced
exactly five minutes apart in ascending (oldest-first) order. -/
theorem timestamps_correct (t : Int) :
    (timestamps (ceil_dt t bucketTd)).length = 10 ∧
    timestamps (ceil_dt t bucketTd) =
      [ceil_dt t bucketTd - 10 * bucketTd, ceil_dt t bucketTd - 9 * bucketTd,
       ceil_dt t bucketTd - 8 * bucketTd, ceil_dt t bucketTd - 7 * bucketTd,
       ceil_dt t bucketTd - 6 * bucketTd, ceil_dt t bucketTd - 5 * bucketTd,
       ceil_dt t bucketTd - 4 * bucketTd, ceil_dt t bucketTd - 3 * bucketTd,
       ceil_dt t bucketTd - 2 * bucketTd, ceil_dt t bucketTd - 1 * bucketTd] ∧
    (∀ x ∈ timestamps (ceil_dt t bucketTd), x < ceil_dt t bucketTd) ∧
    List.Chain' (fun a b => b = a + bucketTd) (timestamps (ceil_dt t bucketTd)) := by
  rw [timestamps_eq]
  refine ⟨rfl, ?_, ?_, ?_⟩
  · simp only [List.cons.injEq, and_true, bucketTd]
    omega
  · intro x hx
    unfold bucketTd at *
    simp at hx
    rcases hx with h | h | h | h | h | h | h | h | h | h <;> omega
  · unfold bucketTd
    simp [List.chain'_cons]
    omega

/-! ## Data model of the camera entity and its environment -/

/-- Image bytes. -/
abbrev Bytes := List Nat

/-- A horizontal line drawn by `ImageDraw.Draw(frame).line(...)` (line 162):
the four coordinates handed to `draw.line`, the stroke width and the fill. -/
structure DrawnLine where
  x0 : ℚ
  y0 : ℚ
  x1 : ℚ
  y1 : ℚ
  stroke : Nat
  fill : String
deriving DecidableEq, Repr

/-- A decoded raster frame (the result of `Image.open`), with the overlays
later drawn onto it. -/
structure Frame where
  w : Nat
  h : Nat
  content : Bytes
  overlays : List DrawnLine
deriving DecidableEq, Repr

instance : Inhabited Frame := ⟨⟨0, 0, [], []⟩⟩

/-- The host state-store entry for this entity
(`hass.states.get(self.entity_id)`): a state value and an attribute map. -/
structure HostEntry where
  state : String
  attributes : List (String × String)
deriving DecidableEq, Repr

/-- The mutable fields of `NeaRainCamera` touched by `async_camera_image`,
plus the host state-store entry for this entity.  (`_last_query_time` is
initialised in `__init__` but never read or written afterwards, so it is
omitted.) -/
structure CameraState where
  last_image : Option Bytes
  last_image_time : Option Int
  last_image_time_pretty : Option String
  last_url : Option String
  last_state : Option String
  last_attributes : Option (List (String × String))
  updated_attributes : Option (List (String × String))
  host : Option HostEntry
deriving DecidableEq, Repr

/-- Embedding of `__init__` (lines 64-78): every cached field starts as `None`; the host
state-store entry is whatever the host holds at construction time. -/
def initState (host0 : Option HostEntry) : CameraState :=
  ⟨none, none, none, none, none, none, none, host0⟩

/-- The external collaborators of one `async_camera_image` invocation:
the wall clock, PIL decoding (`Image.open`; `none` = raises) and GIF
encoding (`save`), timestamp formatting (`strftime` in SG time /
`isoformat`), and the URL template pieces from `const.py` (not under
`src/`, hence opaque strings). -/
structure Env where
  now : Int
  decode : Bytes → Option Frame
  encode : List Frame → Bytes
  fmtTs : Int → String
  isoFmt : Int → String
  urlPre : String
  urlSuf : String

/-- Result of one invocation: a normal return with the returned value and the
post-state, or an uncaught exception escaping `async_camera_image` with the
mutations already performed. -/
inductive RunResult where
  | ok (ret : Option Bytes) (s : CameraState)
  | raised (s : CameraState)
deriving DecidableEq, Repr

/-- Python `dict` assignment `m[k] = v`: overwrite in place if the key
exists, else append. -/
def setKey (m : List (String × String)) (k v : String) : List (String × String) :=
  if m.any (fun p => p.1 = k) then
    m.map (fun p => if p.1 = k then (k, v) else p)
  else m ++ [(k, v)]

/-- The decoding loop of lines 149-153: for each non-`None` content,
`self._last_image = content` and then `Image.open(...)` is appended to
`images`.  `Image.open` is not inside any `try`, so a failing decode
(`env.decode content = none`) raises with the mutations made so far. -/
def decodeLoop (dec : Bytes → Option Frame) :
    List (Option Bytes) → CameraState → List Frame →
    Except CameraState (CameraState × List Frame)
  | [], s, acc => .ok (s, acc)
  | none :: rest, s, acc => decodeLoop dec rest s acc
  | some c :: rest, s, acc =>
      let s' := { s with last_image := some c }
      match dec c with
      | none => .error s'
      | some f => decodeLoop dec rest s' (acc ++ [f])

/-- The progress-bar computation of one frame (lines 159-162): with `n`
frames, frame `i` gets `progress = i / (n - 1)` and the line
`(0, 0, progress * w, 0)` with fill `'gray'` and width 3. -/
def mkBar (i n w : Nat) : DrawnLine :=
  ⟨0, 0, ((i : ℚ) / ((n - 1 : Nat) : ℚ)) * (w : ℚ), 0, 3, "gray"⟩

/-- The `for idx, frame in enumerate(images)` loop of lines 157-163: each
frame is mutated in place by drawing its progress bar, and collected in
order. -/
def addBars (images : List Frame) : List Frame :=
  images.enum.map fun p =>
    { p.2 with overlays := p.2.overlays ++ [mkBar p.1 images.length p.2.w] }

/-- The URL for a bucket timestamp (lines 113 and 172):
`RAIN_MAP_URL_PREFIX + strftime + RAIN_MAP_URL_SUFFIX`. -/
def urlFor (env : Env) (ts : Int) : String :=
  env.urlPre ++ env.fmtTs ts ++ env.urlSuf

/-- Lines 168-180 (full-success commit): record the last bucket timestamp,
its ISO string and URL, then read the entity from the host state store
(line 174 raises `AttributeError` when the lookup returns `None`), merge in
the two attribute keys and write the merged set back. -/
def fullCommit (env : Env) (lastTs : Int) (s2 : CameraState) : RunResult :=
  let s3 := { s2 with
                last_image_time := some lastTs,
                last_image_time_pretty := some (env.isoFmt lastTs),
                last_url := some (urlFor env lastTs) }
  match s3.host with
  | none => .raised s3
  | some entry =>
    let upd := setKey (setKey entry.attributes "Updated at"
                (env.isoFmt lastTs)) "URL" (urlFor env lastTs)
    let s4 := { s3 with
                  last_state := some entry.state,
                  last_attributes := some entry.attributes,
                  updated_attributes := some upd,
                  host := some ⟨entry.state, upd⟩ }
    .ok s4.last_image s4

/-- Lines 155-182 after the decode loop: composite and encode when more than
one frame decoded, commit the metadata on full success, and return
`self._last_image`. -/
def afterDecode (env : Env) (tss : List Int) (s1 : CameraState)
    (images : List Frame) : RunResult :=
  if 1 < images.length then
    let buff := env.encode (addBars images)
    let s2 := { s1 with last_image := some buff }
    if images.length = tss.length then
      fullCommit env (tss.getLastD 0) s2
    else
      .ok s2.last_image s2
  else
    .ok s1.last_image s1

/-- Embedding of `async_camera_image` (lines 103-182).  `fetch` is the per-timestamp
result of the inner `get_image` coroutine, which never raises (see
`get_image` below); `asyncio.gather` (line 147) preserves input order. -/
def asyncCameraImage (env : Env) (fetch : Int → Option Bytes)
    (s : CameraState) : RunResult :=
  let td := bucketTd
  let now := ceil_dt env.now td
  -- lines 136-139: cache gate (fall through when the inner test fails)
  if s.last_image_time = some (now - td) ∧ s.last_image ≠ none then
    .ok s.last_image s
  else
    -- lines 141-147
    let tss := timestamps now
    let contents := tss.map fetch
    match decodeLoop env.decode contents s [] with
    | .error sErr => .raised sErr
    | .ok (s1, images) => afterDecode env tss s1 images

/-- Embedding of `extra_state_attributes` (lines 188-194). -/
def extra_state_attributes (s : CameraState) : List (String × Option String) :=
  [("Updated at", s.last_image_time_pretty), ("URL", s.last_url)]

/-! ## The single-bucket fetch `get_image` (lines 111-131) -/

/-- An httpx response: status code and body. -/
structure Response where
  status : Nat
  content : Bytes
deriving DecidableEq, Repr

/-- The exceptions the `except` clauses of lines 121-131 distinguish.
`otherExc` stands for any other `Exception` (clause at line 129). -/
inductive HttpxError where
  | timeoutExc
  | httpStatusError
  | requestError
  | otherExc
deriving DecidableEq, Repr

/-- Embedding of `response.raise_for_status()` (line 118): raises `HTTPStatusError` for a
non-2xx status, otherwise returns the response. -/
def raise_for_status (r : Response) : Except HttpxError Response :=
  if 200 ≤ r.status ∧ r.status < 300 then .ok r else .error .httpStatusError

/-- The body of the `try` block of lines 115-119: the awaited GET either
yields a response or raises, then `raise_for_status` may raise, then
`response.content` is returned. -/
def get_image_try (req : Except HttpxError Response) : Except HttpxError Bytes :=
  match req with
  | .error e => .error e
  | .ok resp =>
    match raise_for_status resp with
    | .error e => .error e
    | .ok resp2 => .ok resp2.content

/-- Embedding of `get_image` (lines 111-131): the `try` body with every `except` clause
returning `None` (lines 121-131 cover `TimeoutException`,
`(HTTPStatusError, RequestError)` and any other `Exception`). -/
def get_image (req : Except HttpxError Response) : Option Bytes :=
  match get_image_try req with
  | .ok b => some b
  | .error .timeoutExc => none
  | .error .httpStatusError => none
  | .error .requestError => none
  | .error .otherExc => none

/-- C5: every fetch failure (timeout, non-2xx status, transport error, any
other exception) becomes `None` rather than propagating; on a 2xx success
the raw response bytes are returned. -/
theorem get_image_total (req : Except HttpxError Response) :
    (∃ r, req = .ok r ∧ 200 ≤ r.status ∧ r.status < 300 ∧
          get_image req = some r.content) ∨
    get_image req = none := by
  match req with
  | .error e =>
    right
    cases e <;> rfl
  | .ok r =>
    by_cases h : 200 ≤ r.status ∧ r.status < 300
    · left
      refine ⟨r, rfl, h.1, h.2, ?_⟩
      simp [get_image, get_image_try, raise_for_status, h]
    · right
      simp [get_image, get_image_try, raise_for_status, h]

/-! ## Properties of the decoding loop -/

lemma decodeLoop_cons_none {dec : Bytes → Option Frame}
    {rest : List (Option Bytes)} {s : CameraState} {acc : List Frame} :
    decodeLoop dec (none :: rest) s acc = decodeLoop dec rest s acc := rfl

lemma decodeLoop_cons_some {dec : Bytes → Option Frame} {c : Bytes} {f : Frame}
    {rest : List (Option Bytes)} {s : CameraState} {acc : List Frame}
    (hd : dec c = some f) :
    decodeLoop dec (some c :: rest) s acc =
      decodeLoop dec rest { s with last_image := some c } (acc ++ [f]) := by
  simp only [decodeLoop, hd]

lemma decodeLoop_cons_fail {dec : Bytes → Option Frame} {c : Bytes}
    {rest : List (Option Bytes)} {s : CameraState} {acc : List Frame}
    (hd : dec c = none) :
    decodeLoop dec (some c :: rest) s acc =
      .error { s with last_image := some c } := by
  simp only [decodeLoop, hd]

lemma decodeLoop_preserves_meta (dec : Bytes → Option Frame) :
    ∀ (cs : List (Option Bytes)) (s : CameraState) (acc : List Frame)
      (s1 : CameraState) (imgs : List Frame),
      decodeLoop dec cs s acc = .ok (s1, imgs) →
      s1.last_image_time = s.last_image_time ∧
      s1.last_image_time_pretty = s.last_image_time_pretty ∧
      s1.last_url = s.last_url ∧
      s1.last_state = s.last_state ∧
      s1.last_attributes = s.last_attributes ∧
      s1.updated_attributes = s.updated_attributes ∧
      s1.host = s.host
  | [], s, acc, s1, imgs, h => by
    simp only [decodeLoop, Except.ok.injEq, Prod.mk.injEq] at h
    rw [← h.1]
    exact ⟨rfl, rfl, rfl, rfl, rfl, rfl, rfl⟩
  | none :: rest, s, acc, s1, imgs, h => by
    rw [decodeLoop_cons_none] at h
    exact decodeLoop_preserves_meta dec rest s acc s1 imgs h
  | some c :: rest, s, acc, s1, imgs, h => by
    cases hd : dec c with
    | none => rw [decodeLoop_cons_fail hd] at h; exact absurd h (by simp)
    | some f =>
      rw [decodeLoop_cons_some hd] at h
      have := decodeLoop_preserves_meta dec rest _ _ s1 imgs h
      simpa using this

lemma decodeLoop_all_none (dec : Bytes → Option Frame) :
    ∀ (cs : List (Option Bytes)) (s : CameraState) (acc : List Frame),
      cs.filterMap id = [] →
      decodeLoop dec cs s acc = .ok (s, acc)
  | [], s, acc, _ => rfl
  | none :: rest, s, acc, h => by
    simp only [List.filterMap_cons_none, id] at h
    simp only [decodeLoop]
    exact decodeLoop_all_none dec rest s acc (by simpa using h)
  | some c :: rest, s, acc, h => by
    simp at h

lemma decodeLoop_single (dec : Bytes → Option Frame) (b : Bytes) (f : Frame) :
    ∀ (cs : List (Option Bytes)) (s : CameraState) (acc : List Frame),
      cs.filterMap id = [b] →
      dec b = some f →
      decodeLoop dec cs s acc =
        .ok ({ s with last_image := some b }, acc ++ [f])
  | [], s, acc, h, _ => List.noConfusion h
  | none :: rest, s, acc, h, hd => by
    rw [decodeLoop_cons_none]
    exact decodeLoop_single dec b f rest s acc (by simpa using h) hd
  | some c :: rest, s, acc, h, hd => by
    have hfm : List.filterMap id (some c :: rest) = c :: List.filterMap id rest := rfl
    rw [hfm] at h
    simp only [List.cons.injEq] at h
    obtain ⟨rfl, hrest⟩ := h
    rw [decodeLoop_cons_some hd,
        decodeLoop_all_none dec rest _ _ (by simpa using hrest)]

lemma getLast?_cons_or {α : Type} (c : α) (l : List α) :
    (c :: l).getLast? = Option.or l.getLast? (some c) := by
  cases l with
  | nil => rfl
  | cons x xs =>
    rw [List.getLast?_cons_cons]
    cases h : (x :: xs).getLast? with
    | none => exact absurd h (by simp [List.getLast?_isSome])
    | some y => rfl

lemma decodeLoop_last_image (dec : Bytes → Option Frame) :
    ∀ (cs : List (Option Bytes)) (s : CameraState) (acc : List Frame)
      (s1 : CameraState) (imgs : List Frame),
      decodeLoop dec cs s acc = .ok (s1, imgs) →
      s1.last_image = Option.or (cs.filterMap id).getLast? s.last_image
  | [], s, acc, s1, imgs, h => by
    simp only [decodeLoop, Except.ok.injEq, Prod.mk.injEq] at h
    rw [← h.1]
    rfl
  | none :: rest, s, acc, s1, imgs, h => by
    rw [decodeLoop_cons_none] at h
    simpa using decodeLoop_last_image dec rest s acc s1 imgs h
  | some c :: rest, s, acc, s1, imgs, h => by
    cases hd : dec c with
    | none => rw [decodeLoop_cons_fail hd] at h; exact absurd h (by simp)
    | some f =>
      rw [decodeLoop_cons_some hd] at h
      have hthis := decodeLoop_last_image dec rest _ _ s1 imgs h
      have hfm : List.filterMap id (some c :: rest) = c :: List.filterMap id rest := rfl
      rw [hfm, getLast?_cons_or, Option.or_assoc, Option.or_some]
      simpa using hthis

lemma decodeLoop_error (dec : Bytes → Option Frame) :
    ∀ (cs : List (Option Bytes)) (s : CameraState) (acc : List Frame)
      (sE : CameraState),
      decodeLoop dec cs s acc = .error sE →
      sE.last_image.isSome = true ∧ cs.any (fun c => c.isSome) = true
  | [], s, acc, sE, h => by simp [decodeLoop] at h
  | none :: rest, s, acc, sE, h => by
    rw [decodeLoop_cons_none] at h
    have := decodeLoop_error dec rest s acc sE h
    refine ⟨this.1, ?_⟩
    simp only [List.any_cons, Option.isSome_none, Bool.false_or]
    exact this.2
  | some c :: rest, s, acc, sE, h => by
    cases hd : dec c with
    | none =>
      rw [decodeLoop_cons_fail hd] at h
      simp only [Except.error.injEq] at h
      rw [← h]
      simp
    | some f =>
      rw [decodeLoop_cons_some hd] at h
      have := decodeLoop_error dec rest _ _ sE h
      refine ⟨this.1, ?_⟩
      simp

lemma decodeLoop_total (dec : Bytes → Option Frame) :
    ∀ (cs : List (Option Bytes)) (s : CameraState) (acc : List Frame),
      (∀ b, some b ∈ cs → (dec b).isSome = true) →
      ∃ s1 imgs, decodeLoop dec cs s acc = .ok (s1, imgs)
  | [], s, acc, _ => ⟨s, acc, rfl⟩
  | none :: rest, s, acc, h => by
    rw [decodeLoop_cons_none]
    exact decodeLoop_total dec rest s acc (fun b hb => h b (by simp [hb]))
  | some c :: rest, s, acc, h => by
    have hc : (dec c).isSome = true := h c (by simp)
    cases hd : dec c with
    | none => rw [hd] at hc; simp at hc
    | some f =>
      rw [decodeLoop_cons_some hd]
      exact decodeLoop_total dec rest _ _ (fun b hb => h b (by simp [hb]))

lemma any_isSome_iff_filterMap_ne_nil (cs : List (Option Bytes)) :
    cs.any (fun c => c.isSome) = true ↔ cs.filterMap id ≠ [] := by
  induction cs with
  | nil => simp
  | cons c rest ih =>
    cases c with
    | none => simpa using ih
    | some b => simp

/-! ## Path lemmas for the pipeline -/

lemma async_gate {env : Env} {fetch : Int → Option Bytes} {s : CameraState}
    (h1 : s.last_image_time = some (ceil_dt env.now bucketTd - bucketTd))
    (h2 : s.last_image ≠ none) :
    asyncCameraImage env fetch s = .ok s.last_image s := by
  simp only [asyncCameraImage]
  rw [if_pos ⟨h1, h2⟩]

lemma async_nogate {env : Env} {fetch : Int → Option Bytes} {s : CameraState}
    (hg : ¬ (s.last_image_time = some (ceil_dt env.now bucketTd - bucketTd) ∧
             s.last_image ≠ none)) :
    asyncCameraImage env fetch s =
      match decodeLoop env.decode
              ((timestamps (ceil_dt env.now bucketTd)).map fetch) s [] with
      | .error sErr => .raised sErr
      | .ok (s1, images) =>
          afterDecode env (timestamps (ceil_dt env.now bucketTd)) s1 images := by
  simp only [asyncCameraImage]
  rw [if_neg hg]

lemma afterDecode_le_one {env : Env} {tss : List Int} {s1 : CameraState}
    {images : List Frame} (h : ¬ 1 < images.length) :
    afterDecode env tss s1 images = .ok s1.last_image s1 := by
  simp only [afterDecode]
  rw [if_neg h]

lemma afterDecode_partialSuccess {env : Env} {tss : List Int} {s1 : CameraState}
    {images : List Frame} (h2 : 1 < images.length)
    (hne : ¬ images.length = tss.length) :
    afterDecode env tss s1 images =
      .ok (some (env.encode (addBars images)))
          { s1 with last_image := some (env.encode (addBars images)) } := by
  simp only [afterDecode]
  rw [if_pos h2, if_neg hne]

lemma afterDecode_full {env : Env} {tss : List Int} {s1 : CameraState}
    {images : List Frame} (h2 : 1 < images.length)
    (heq : images.length = tss.length) :
    afterDecode env tss s1 images =
      fullCommit env (tss.getLastD 0)
        { s1 with last_image := some (env.encode (addBars images)) } := by
  simp only [afterDecode]
  rw [if_pos h2, if_pos heq]

lemma fullCommit_nohost {env : Env} {lastTs : Int} {s2 : CameraState}
    (h : s2.host = none) :
    fullCommit env lastTs s2 =
      .raised { s2 with
                  last_image_time := some lastTs,
                  last_image_time_pretty := some (env.isoFmt lastTs),
                  last_url := some (urlFor env lastTs) } := by
  simp only [fullCommit]
  rw [show ({ s2 with
                last_image_time := some lastTs,
                last_image_time_pretty := some (env.isoFmt lastTs),
                last_url := some (urlFor env lastTs) } : CameraState).host
        = s2.host from rfl, h]

lemma fullCommit_host {env : Env} {lastTs : Int} {s2 : CameraState}
    {entry : HostEntry} (h : s2.host = some entry) :
    fullCommit env lastTs s2 =
      .ok s2.last_image
        { s2 with
            last_image_time := some lastTs,
            last_image_time_pretty := some (env.isoFmt lastTs),
            last_url := some (urlFor env lastTs),
            last_state := some entry.state,
            last_attributes := some entry.attributes,
            updated_attributes := some (setKey (setKey entry.attributes
              "Updated at" (env.isoFmt lastTs)) "URL" (urlFor env lastTs)),
            host := some ⟨entry.state, setKey (setKey entry.attributes
              "Updated at" (env.isoFmt lastTs)) "URL" (urlFor env lastTs)⟩ } := by
  simp only [fullCommit]
  rw [show ({ s2 with
                last_image_time := some lastTs,
                last_image_time_pretty := some (env.isoFmt lastTs),
                last_url := some (urlFor env lastTs) } : CameraState).host
        = s2.host from rfl, h]

/-! ## Additional decode-loop facts -/

lemma decodeLoop_length (dec : Bytes → Option Frame) :
    ∀ (cs : List (Option Bytes)) (s : CameraState) (acc : List Frame)
      (s1 : CameraState) (imgs : List Frame),
      decodeLoop dec cs s acc = .ok (s1, imgs) →
      imgs.length = acc.length + (cs.filterMap id).length
  | [], s, acc, s1, imgs, h => by
    simp only [decodeLoop, Except.ok.injEq, Prod.mk.injEq] at h
    rw [← h.2]
    simp
  | none :: rest, s, acc, s1, imgs, h => by
    rw [decodeLoop_cons_none] at h
    simpa using decodeLoop_length dec rest s acc s1 imgs h
  | some c :: rest, s, acc, s1, imgs, h => by
    cases hd : dec c with
    | none => rw [decodeLoop_cons_fail hd] at h; exact absurd h (by simp)
    | some f =>
      rw [decodeLoop_cons_some hd] at h
      have := decodeLoop_length dec rest _ _ s1 imgs h
      have hfm : List.filterMap id (some c :: rest) = c :: List.filterMap id rest := rfl
      rw [hfm]
      simp only [List.length_append, List.length_cons, List.length_nil] at this ⊢
      omega

lemma getLast?_isSome_eq_any (cs : List (Option Bytes)) :
    (cs.filterMap id).getLast?.isSome = cs.any (fun c => c.isSome) := by
  by_cases h : cs.filterMap id = []
  · have hfalse : cs.any (fun c => c.isSome) = false := by
      by_contra hb
      have hb2 : cs.any (fun c => c.isSome) = true := by
        cases hx : cs.any (fun c => c.isSome) with
        | true => rfl
        | false => exact absurd hx hb
      exact (any_isSome_iff_filterMap_ne_nil cs).mp hb2 h
    rw [h, hfalse]
    rfl
  · have h1 : (cs.filterMap id).getLast?.isSome = true := List.getLast?_isSome.mpr h
    have h2 : cs.any (fun c => c.isSome) = true :=
      (any_isSome_iff_filterMap_ne_nil cs).mpr h
    rw [h1, h2]

/-! ## Concrete sample objects used by witnesses and counterexamples -/

/-- A decoding stub: every byte string decodes to a 4×2 frame. -/
def decode0 : Bytes → Option Frame := fun b => some ⟨4, 2, b, []⟩

/-- A sample environment at wall-clock instant 0 (already bucket-aligned). -/
def env0 : Env :=
  ⟨0, decode0, fun fs => 200 :: fs.map (fun f => f.w),
   fun _ => "202601010000", fun _ => "2026-01-01T00:00:00", "PRE", "SUF"⟩

/-- A state that satisfies the cache gate for `env0`
(`last_image_time = now - 5min` with `now = 0`, and a cached animation). -/
def s0gate : CameraState :=
  ⟨some [1, 2, 3], some (-300000000), some "2025-12-31T23:55:00",
   some "PREoldSUF", none, none, none, none⟩

/-- A state with a previously cached animation but a stale bucket timestamp,
so the cache gate falls through. -/
def s0prior : CameraState :=
  ⟨some [1, 2, 3], none, none, none, none, none, none,
   some ⟨"ok", [("existing", "attr")]⟩⟩

/-- A fetch stub succeeding (with body `[7]`) only for the newest bucket
`now - 5min = -300000000`. -/
def fetch1 : Int → Option Bytes :=
  fun t => if t = -300000000 then some [7] else none

/-- C3: when the cached last-frame bucket equals `now - 5min` and a cached
animation exists, the call returns the cached bytes with the state (all
cached fields and the host store) unchanged, and the result is identical
for any environment in the same bucket and for any fetch function (hence no
fetch is issued and a second call in the same bucket is byte-identical). -/
theorem cache_gate_correct (env : Env) (fetch : Int → Option Bytes)
    (s : CameraState)
    (h1 : s.last_image_time = some (ceil_dt env.now bucketTd - bucketTd))
    (h2 : s.last_image ≠ none) :
    asyncCameraImage env fetch s = .ok s.last_image s ∧
    ∀ env2 fetch2, ceil_dt env2.now bucketTd = ceil_dt env.now bucketTd →
      asyncCameraImage env2 fetch2 s = .ok s.last_image s := by
  refine ⟨async_gate h1 h2, fun env2 fetch2 hnow => async_gate ?_ h2⟩
  rw [hnow]
  exact h1

/-- Witness for C3: a concrete gated state returns the cached bytes for two
different fetch functions (so the result does not depend on the fetch). -/
theorem cache_gate_witness :
    asyncCameraImage env0 (fun _ => none) s0gate = .ok (some [1, 2, 3]) s0gate ∧
    asyncCameraImage env0 (fun _ => some [9]) s0gate = .ok (some [1, 2, 3]) s0gate := by
  have h := cache_gate_correct env0 (fun _ => none) s0gate (by decide) (by decide)
  exact ⟨h.1, h.2 env0 (fun _ => some [9]) rfl⟩

/-! ## C4: insufficient frames -/

lemma ceil_dt_env0 : ceil_dt env0.now bucketTd = 0 := by decide

lemma timestamps_zero :
    timestamps 0 =
      [-3000000000, -2700000000, -2400000000, -2100000000, -1800000000,
       -1500000000, -1200000000, -900000000, -600000000, -300000000] := by
  rw [timestamps_eq]
  norm_num

/-- Counterexample to C4 as stated: with a prior cached animation `[1, 2, 3]`
and exactly one successful fetch (raw body `[7]` for the newest bucket), the
call does NOT return the previously cached result unchanged — it overwrites
`_last_image` with the raw fetched bytes (line 152) and returns those. -/
theorem single_frame_cex :
    asyncCameraImage env0 fetch1 s0prior =
      .ok (some [7]) { s0prior with last_image := some [7] } ∧
    ¬ asyncCameraImage env0 fetch1 s0prior = .ok s0prior.last_image s0prior := by
  have hg : ¬ (s0prior.last_image_time =
      some (ceil_dt env0.now bucketTd - bucketTd) ∧ s0prior.last_image ≠ none) := by
    decide
  have h := @async_nogate env0 fetch1 s0prior hg
  rw [ceil_dt_env0, timestamps_zero] at h
  rw [h]
  exact ⟨by decide, by decide⟩

/-- C4 amended: when zero fetches succeed the previously cached result is
returned with no field modified; when exactly one fetch succeeds (body `b`,
which decodes), no animation is produced either, but `_last_image` is
overwritten with the raw bytes `b` and those bytes are returned (all other
cached fields unchanged). -/
theorem insufficient_frames_amended (env : Env) (fetch : Int → Option Bytes)
    (s : CameraState)
    (hg : ¬ (s.last_image_time = some (ceil_dt env.now bucketTd - bucketTd) ∧
             s.last_image ≠ none)) :
    ((∀ c ∈ (timestamps (ceil_dt env.now bucketTd)).map fetch, c = none) →
       asyncCameraImage env fetch s = .ok s.last_image s) ∧
    (∀ b f, ((timestamps (ceil_dt env.now bucketTd)).map fetch).filterMap id = [b] →
       env.decode b = some f →
       asyncCameraImage env fetch s =
         .ok (some b) { s with last_image := some b }) := by
  constructor
  · intro hall
    have hnil : ((timestamps (ceil_dt env.now bucketTd)).map fetch).filterMap id
        = [] := by
      rw [List.filterMap_eq_nil_iff]
      intro a ha
      exact hall a ha
    rw [async_nogate hg, decodeLoop_all_none env.decode _ s [] hnil]
    exact afterDecode_le_one (by simp)
  · intro b f hone hdec
    rw [async_nogate hg, decodeLoop_single env.decode b f _ s [] hone hdec]
    exact afterDecode_le_one (by simp)

/-- Witness for the amended C4: zero successes return the prior cache
unchanged; a single success (body `[7]`) returns the raw bytes and
overwrites only `_last_image`. -/
theorem insufficient_frames_witness :
    asyncCameraImage env0 (fun _ => none) s0prior = .ok (some [1, 2, 3]) s0prior ∧
    asyncCameraImage env0 fetch1 s0prior =
      .ok (some [7]) { s0prior with last_image := some [7] } := by
  have hA := insufficient_frames_amended env0 (fun _ => none) s0prior (by decide)
  have hB := insufficient_frames_amended env0 fetch1 s0prior (by decide)
  constructor
  · exact hA.1 (by intro c hc; exact (by simpa using hc : _ ∧ c = none).2)
  · refine hB.2 [7] ⟨4, 2, [7], []⟩ ?_ ?_
    · rw [ceil_dt_env0, timestamps_zero]
      decide
    · decide

/-! ## C6: progress bars -/

/-- C6: with `n ≥ 2` frames, frame `i` keeps its size and gains exactly one
bar: the line `(0, 0, (i/(n-1))·w, 0)` of width 3, i.e. progress `i/(n-1)`
of the frame width, `0` for the first frame and `1` for the last. -/
theorem progress_bar_correct (images : List Frame) (i : Nat)
    (h2 : 2 ≤ images.length) (hi : i < images.length) :
    (addBars images).length = images.length ∧
    ((addBars images).getD i default).w = (images.getD i default).w ∧
    ((addBars images).getD i default).overlays =
      (images.getD i default).overlays ++
        [⟨0, 0, ((i : ℚ) / ((images.length - 1 : Nat) : ℚ)) *
            ((images.getD i default).w : ℚ), 0, 3, "gray"⟩] ∧
    ((0 : ℚ) / ((images.length - 1 : Nat) : ℚ)) = 0 ∧
    (((images.length - 1 : Nat) : ℚ) / ((images.length - 1 : Nat) : ℚ)) = 1 := by
  have hlen : (addBars images).length = images.length := by
    simp [addBars]
  have hget : (addBars images).getD i default =
      { images.getD i default with
          overlays := (images.getD i default).overlays ++
            [mkBar i images.length (images.getD i default).w] } := by
    rw [List.getD_eq_getElem _ _ (by rw [hlen]; exact hi),
        List.getD_eq_getElem _ _ hi]
    simp only [addBars, List.getElem_map, List.getElem_enum]
  refine ⟨hlen, ?_, ?_, ?_, ?_⟩
  · rw [hget]
  · rw [hget]
    simp only [mkBar]
  · simp
  · have hne : ((images.length - 1 : Nat) : ℚ) ≠ 0 := by
      rw [Nat.cast_ne_zero]
      omega
    exact div_self hne

/-- Ten identical 4×2 sample frames. -/
def images10 : List Frame :=
  [⟨4, 2, [], []⟩, ⟨4, 2, [], []⟩, ⟨4, 2, [], []⟩, ⟨4, 2, [], []⟩,
   ⟨4, 2, [], []⟩, ⟨4, 2, [], []⟩, ⟨4, 2, [], []⟩, ⟨4, 2, [], []⟩,
   ⟨4, 2, [], []⟩, ⟨4, 2, [], []⟩]

/-- Witness for C6: with 10 frames, frame 3 carries the single bar
`(0,0, (3/9)·4, 0) = (0,0,4/3,0)`, frame 0 a length-0 bar and frame 9 a
full-width bar. -/
theorem progress_bar_witness :
    ((addBars images10).getD 3 default).overlays = [⟨0, 0, 4/3, 0, 3, "gray"⟩] ∧
    ((addBars images10).getD 0 default).overlays = [⟨0, 0, 0, 0, 3, "gray"⟩] ∧
    ((addBars images10).getD 9 default).overlays = [⟨0, 0, 4, 0, 3, "gray"⟩] := by
  have h3 := progress_bar_correct images10 3 (by decide) (by decide)
  have h0 := progress_bar_correct images10 0 (by decide) (by decide)
  have h9 := progress_bar_correct images10 9 (by decide) (by decide)
  refine ⟨?_, ?_, ?_⟩
  · rw [h3.2.2.1]
    simp [images10, List.getD, DrawnLine.mk.injEq]
    norm_num
  · rw [h0.2.2.1]
    simp [images10, List.getD, DrawnLine.mk.injEq]
  · rw [h9.2.2.1]
    simp [images10, List.getD, DrawnLine.mk.injEq]

/-! ## Projections used to state run outcomes without binders -/

/-- The post-state of an invocation (both for a normal return and for an
escaping exception). -/
def RunResult.state : RunResult → CameraState
  | .ok _ s => s
  | .raised s => s

/-- The value returned by a normal return (`none` when the invocation
raised). -/
def RunResult.retVal : RunResult → Option Bytes
  | .ok r _ => r
  | .raised _ => none

lemma async_decode_ok {env : Env} {fetch : Int → Option Bytes}
    {s s1 : CameraState} {images : List Frame}
    (hg : ¬ (s.last_image_time = some (ceil_dt env.now bucketTd - bucketTd) ∧
             s.last_image ≠ none))
    (hdl : decodeLoop env.decode
        ((timestamps (ceil_dt env.now bucketTd)).map fetch) s []
        = .ok (s1, images)) :
    asyncCameraImage env fetch s =
      afterDecode env (timestamps (ceil_dt env.now bucketTd)) s1 images := by
  rw [async_nogate hg, hdl]

lemma async_decode_err {env : Env} {fetch : Int → Option Bytes}
    {s sE : CameraState}
    (hg : ¬ (s.last_image_time = some (ceil_dt env.now bucketTd - bucketTd) ∧
             s.last_image ≠ none))
    (hdl : decodeLoop env.decode
        ((timestamps (ceil_dt env.now bucketTd)).map fetch) s []
        = .error sE) :
    asyncCameraImage env fetch s = .raised sE := by
  rw [async_nogate hg, hdl]

/-! ## C7: fresh animation on ≥ 2 frames -/

/-- C7: whenever at least two frames decoded (and, on full success, the host
entry exists so that line 174 does not raise), the newly encoded animation
`encode (addBars images)` both replaces the stored `_last_image` and is the
value returned — also for partial success `2 ≤ frames < 10`. -/
theorem fresh_animation_returned (env : Env) (fetch : Int → Option Bytes)
    (s s1 : CameraState) (images : List Frame)
    (hg : ¬ (s.last_image_time = some (ceil_dt env.now bucketTd - bucketTd) ∧
             s.last_image ≠ none))
    (hdl : decodeLoop env.decode
        ((timestamps (ceil_dt env.now bucketTd)).map fetch) s []
        = .ok (s1, images))
    (h2 : 1 < images.length)
    (hhost : images.length = (timestamps (ceil_dt env.now bucketTd)).length →
             s1.host.isSome = true) :
    ∃ sF, asyncCameraImage env fetch s
            = .ok (some (env.encode (addBars images))) sF ∧
          sF.last_image = some (env.encode (addBars images)) := by
  rw [async_decode_ok hg hdl]
  by_cases heq : images.length = (timestamps (ceil_dt env.now bucketTd)).length
  · obtain ⟨entry, hentry⟩ := Option.isSome_iff_exists.mp (hhost heq)
    have hs2 : ({ s1 with last_image := some (env.encode (addBars images)) }
        : CameraState).host = some entry := hentry
    rw [afterDecode_full h2 heq, fullCommit_host hs2]
    exact ⟨_, rfl, rfl⟩
  · rw [afterDecode_partialSuccess h2 heq]
    exact ⟨_, rfl, rfl⟩

/-- A fetch stub that succeeds with body `[7]` for every bucket. -/
def fetchAll : Int → Option Bytes := fun _ => some [7]

/-- The ten frames decoded from a full-success `fetchAll` cycle under
`decode0`. -/
def frames7 : List Frame :=
  [⟨4, 2, [7], []⟩, ⟨4, 2, [7], []⟩, ⟨4, 2, [7], []⟩, ⟨4, 2, [7], []⟩,
   ⟨4, 2, [7], []⟩, ⟨4, 2, [7], []⟩, ⟨4, 2, [7], []⟩, ⟨4, 2, [7], []⟩,
   ⟨4, 2, [7], []⟩, ⟨4, 2, [7], []⟩]

lemma decodeLoop_fetchAll :
    decodeLoop env0.decode
        ((timestamps (ceil_dt env0.now bucketTd)).map fetchAll) s0prior []
      = .ok ({ s0prior with last_image := some [7] }, frames7) := by
  rw [ceil_dt_env0, timestamps_zero]
  rfl

/-- Witness for C7: a concrete full-success cycle returns the fresh encoded
animation and stores it as the new `_last_image`. -/
theorem fresh_animation_witness :
    (asyncCameraImage env0 fetchAll s0prior).retVal
        = some (env0.encode (addBars frames7)) ∧
    (asyncCameraImage env0 fetchAll s0prior).state.last_image
        = some (env0.encode (addBars frames7)) := by
  obtain ⟨sF, hrun, hli⟩ :=
    fresh_animation_returned env0 fetchAll s0prior
      { s0prior with last_image := some [7] } frames7 (by decide)
      decodeLoop_fetchAll (by decide)
      (fun _ => by decide)
  rw [hrun]
  exact ⟨rfl, hli⟩

/-! ## C8: metadata committed exactly on full success -/

lemma timestamps_length (now : Int) : (timestamps now).length = 10 := by
  rw [timestamps_eq]
  rfl

/-- C8: the cached metadata triple (bucket timestamp, ISO string, URL) and
the host entry are rewritten exactly in a full-success cycle (every
requested bucket decoded, host entry present); a partial cycle with
`2 ≤ frames < 10`, and a cycle with `≤ 1` frames, leave the triple, the
host entry and `extra_state_attributes` unchanged. -/
theorem metadata_commit_iff (env : Env) (fetch : Int → Option Bytes)
    (s s1 : CameraState) (images : List Frame)
    (hg : ¬ (s.last_image_time = some (ceil_dt env.now bucketTd - bucketTd) ∧
             s.last_image ≠ none))
    (hdl : decodeLoop env.decode
        ((timestamps (ceil_dt env.now bucketTd)).map fetch) s []
        = .ok (s1, images)) :
    (∀ entry, images.length = (timestamps (ceil_dt env.now bucketTd)).length →
       s1.host = some entry →
       ∃ sF, asyncCameraImage env fetch s
               = .ok (some (env.encode (addBars images))) sF ∧
         sF.last_image_time
             = some ((timestamps (ceil_dt env.now bucketTd)).getLastD 0) ∧
         sF.last_image_time_pretty
             = some (env.isoFmt ((timestamps (ceil_dt env.now bucketTd)).getLastD 0)) ∧
         sF.last_url
             = some (urlFor env ((timestamps (ceil_dt env.now bucketTd)).getLastD 0)) ∧
         sF.host = some ⟨entry.state,
             setKey (setKey entry.attributes "Updated at"
                 (env.isoFmt ((timestamps (ceil_dt env.now bucketTd)).getLastD 0)))
               "URL" (urlFor env ((timestamps (ceil_dt env.now bucketTd)).getLastD 0))⟩ ∧
         extra_state_attributes sF =
           [("Updated at",
             some (env.isoFmt ((timestamps (ceil_dt env.now bucketTd)).getLastD 0))),
            ("URL",
             some (urlFor env ((timestamps (ceil_dt env.now bucketTd)).getLastD 0)))]) ∧
    (1 < images.length →
     ¬ images.length = (timestamps (ceil_dt env.now bucketTd)).length →
       ∃ sF, asyncCameraImage env fetch s
               = .ok (some (env.encode (addBars images))) sF ∧
         sF.last_image_time = s.last_image_time ∧
         sF.last_image_time_pretty = s.last_image_time_pretty ∧
         sF.last_url = s.last_url ∧
         sF.host = s.host ∧
         extra_state_attributes sF = extra_state_attributes s) ∧
    (¬ 1 < images.length →
       ∃ sF r, asyncCameraImage env fetch s = .ok r sF ∧
         sF.last_image_time = s.last_image_time ∧
         sF.last_image_time_pretty = s.last_image_time_pretty ∧
         sF.last_url = s.last_url ∧
         sF.host = s.host ∧
         extra_state_attributes sF = extra_state_attributes s) := by
  have meta := decodeLoop_preserves_meta env.decode _ s [] s1 images hdl
  refine ⟨?_, ?_, ?_⟩
  · intro entry heq hentry
    have h2 : 1 < images.length := by
      rw [heq, timestamps_length]
      norm_num
    have hs2 : ({ s1 with last_image := some (env.encode (addBars images)) }
        : CameraState).host = some entry := hentry
    rw [async_decode_ok hg hdl, afterDecode_full h2 heq, fullCommit_host hs2]
    exact ⟨_, rfl, rfl, rfl, rfl, rfl, rfl⟩
  · intro h2 hne
    rw [async_decode_ok hg hdl, afterDecode_partialSuccess h2 hne]
    refine ⟨_, rfl, meta.1, meta.2.1, meta.2.2.1, meta.2.2.2.2.2.2, ?_⟩
    show [("Updated at", s1.last_image_time_pretty), ("URL", s1.last_url)]
        = extra_state_attributes s
    rw [meta.2.1, meta.2.2.1]
    rfl
  · intro h2
    rw [async_decode_ok hg hdl, afterDecode_le_one h2]
    refine ⟨_, _, rfl, meta.1, meta.2.1, meta.2.2.1, meta.2.2.2.2.2.2, ?_⟩
    show [("Updated at", s1.last_image_time_pretty), ("URL", s1.last_url)]
        = extra_state_attributes s
    rw [meta.2.1, meta.2.2.1]
    rfl

/-- Witness for C8: in a concrete full-success cycle the stored bucket
timestamp becomes `now - 5min = -300000000`, the URL becomes the newest
bucket's URL, and `extra_state_attributes` reflects both. -/
theorem metadata_commit_witness :
    (asyncCameraImage env0 fetchAll s0prior).state.last_image_time
        = some (-300000000) ∧
    (asyncCameraImage env0 fetchAll s0prior).state.last_url
        = some "PRE202601010000SUF" ∧
    extra_state_attributes (asyncCameraImage env0 fetchAll s0prior).state =
      [("Updated at", some "2026-01-01T00:00:00"),
       ("URL", some "PRE202601010000SUF")] := by
  obtain ⟨sF, hrun, htime, hpretty, hurl, hhost, hattrs⟩ :=
    (metadata_commit_iff env0 fetchAll s0prior
        { s0prior with last_image := some [7] } frames7 (by decide)
        decodeLoop_fetchAll).1
      ⟨"ok", [("existing", "attr")]⟩
      (by rw [timestamps_length]; rfl)
      rfl
  rw [hrun]
  rw [show (RunResult.ok (some (env0.encode (addBars frames7))) sF).state = sF
      from rfl]
  refine ⟨?_, ?_, ?_⟩
  · rw [htime, ceil_dt_env0, timestamps_zero]
    rfl
  · rw [hurl, ceil_dt_env0, timestamps_zero]
    rfl
  · rw [hattrs, ceil_dt_env0, timestamps_zero]
    rfl

/-! ## C9: exception propagation -/

/-- An environment whose decoder rejects every body (`Image.open` raises,
e.g. on a non-image 200 response). -/
def envBad : Env :=
  ⟨0, fun _ => none, fun fs => 200 :: fs.map (fun f => f.w),
   fun _ => "202601010000", fun _ => "2026-01-01T00:00:00", "PRE", "SUF"⟩

/-- Counterexample to C9 as stated: a successful fetch whose body does not
decode makes `Image.open` (line 153, outside any `try`) raise out of
`async_camera_image` — after `_last_image` has already been overwritten with
the raw bytes. -/
theorem decode_raises_cex :
    asyncCameraImage envBad fetchAll s0prior =
      .raised { s0prior with last_image := some [7] } := by
  have hg : ¬ (s0prior.last_image_time =
      some (ceil_dt envBad.now bucketTd - bucketTd) ∧ s0prior.last_image ≠ none) := by
    decide
  have h := @async_nogate envBad fetchAll s0prior hg
  rw [show ceil_dt envBad.now bucketTd = 0 from by decide, timestamps_zero] at h
  rw [h]
  rfl

/-- C9 amended: the fetch layer never raises (see `get_image_total`), and
`async_camera_image` raises no exception provided every fetched body decodes
and the host state entry exists; an undecodable body (line 153) or a missing
host entry during a full-success commit (line 174) does escape. -/
theorem no_escape_amended (env : Env) (fetch : Int → Option Bytes)
    (s : CameraState)
    (hdec : ∀ b, some b ∈ (timestamps (ceil_dt env.now bucketTd)).map fetch →
            (env.decode b).isSome = true)
    (hhost : s.host.isSome = true) :
    ∃ r sF, asyncCameraImage env fetch s = .ok r sF := by
  by_cases hg : s.last_image_time = some (ceil_dt env.now bucketTd - bucketTd) ∧
      s.last_image ≠ none
  · exact ⟨_, _, async_gate hg.1 hg.2⟩
  · obtain ⟨s1, images, hdl⟩ :=
      decodeLoop_total env.decode _ s [] hdec
    rw [async_decode_ok hg hdl]
    by_cases h2 : 1 < images.length
    · by_cases heq : images.length =
          (timestamps (ceil_dt env.now bucketTd)).length
      · have hh : s1.host = s.host :=
          (decodeLoop_preserves_meta env.decode _ s [] s1 images hdl).2.2.2.2.2.2
        obtain ⟨entry, hentry⟩ := Option.isSome_iff_exists.mp hhost
        have hs2 : ({ s1 with last_image := some (env.encode (addBars images)) }
            : CameraState).host = some entry := by
          show s1.host = some entry
          rw [hh]
          exact hentry
        rw [afterDecode_full h2 heq, fullCommit_host hs2]
        exact ⟨_, _, rfl⟩
      · rw [afterDecode_partialSuccess h2 heq]
        exact ⟨_, _, rfl⟩
    · rw [afterDecode_le_one h2]
      exact ⟨_, _, rfl⟩

/-- Whether an invocation returned normally. -/
def RunResult.isOk : RunResult → Bool
  | .ok _ _ => true
  | .raised _ => false

/-- Witness for the amended C9: a concrete full-success cycle with a total
decoder and a present host entry returns normally (no escaping exception). -/
theorem no_escape_witness :
    (asyncCameraImage env0 fetchAll s0prior).isOk = true := by
  obtain ⟨r, sF, h⟩ :=
    no_escape_amended env0 fetchAll s0prior (fun b _ => rfl) (by decide)
  rw [h]
  rfl

/-! ## C10: lifetime of `_last_image` -/

/-- The camera state after one invocation (normal or raising). -/
def stepState (env : Env) (fetch : Int → Option Bytes)
    (s : CameraState) : CameraState :=
  (asyncCameraImage env fetch s).state

/-- Observer: whether some fetch of this invocation returned bytes (the
cache-gate path issues no fetches). -/
def fetchedBytes (env : Env) (fetch : Int → Option Bytes)
    (s : CameraState) : Bool :=
  if s.last_image_time = some (ceil_dt env.now bucketTd - bucketTd) ∧
      s.last_image ≠ none then
    false
  else
    ((timestamps (ceil_dt env.now bucketTd)).map fetch).any (fun c => c.isSome)

/-- One invocation of the pipeline: its environment and fetch results. -/
structure Step where
  env : Env
  fetch : Int → Option Bytes

/-- Run a sequence of invocations, also recording whether any fetch of any
invocation returned bytes. -/
def runSeq : List Step → CameraState → CameraState × Bool
  | [], s => (s, false)
  | st :: rest, s =>
      let x := runSeq rest (stepState st.env st.fetch s)
      (x.1, fetchedBytes st.env st.fetch s || x.2)

lemma fullCommit_state_last_image (env : Env) (lastTs : Int)
    (s2 : CameraState) :
    (fullCommit env lastTs s2).state.last_image = s2.last_image := by
  cases hh : s2.host with
  | none => rw [fullCommit_nohost hh]; rfl
  | some entry => rw [fullCommit_host hh]; rfl

lemma afterDecode_state_last_image (env : Env) (tss : List Int)
    (s1 : CameraState) (images : List Frame) :
    (afterDecode env tss s1 images).state.last_image =
      if 1 < images.length then some (env.encode (addBars images))
      else s1.last_image := by
  by_cases h2 : 1 < images.length
  · rw [if_pos h2]
    by_cases heq : images.length = tss.length
    · rw [afterDecode_full h2 heq, fullCommit_state_last_image]
    · rw [afterDecode_partialSuccess h2 heq]
      rfl
  · rw [if_neg h2, afterDecode_le_one h2]
    rfl

lemma stepState_isSome (env : Env) (fetch : Int → Option Bytes)
    (s : CameraState) :
    (stepState env fetch s).last_image.isSome =
      (s.last_image.isSome || fetchedBytes env fetch s) := by
  unfold stepState fetchedBytes
  by_cases hg : s.last_image_time = some (ceil_dt env.now bucketTd - bucketTd) ∧
      s.last_image ≠ none
  · rw [async_gate hg.1 hg.2, if_pos hg, Bool.or_false]
    rfl
  · rw [if_neg hg]
    cases hdl : decodeLoop env.decode
        ((timestamps (ceil_dt env.now bucketTd)).map fetch) s [] with
    | error sE =>
      rw [async_decode_err hg hdl]
      have he := decodeLoop_error env.decode _ s [] sE hdl
      show sE.last_image.isSome = _
      rw [he.1, he.2, Bool.or_true]
    | ok p =>
      obtain ⟨s1, images⟩ := p
      rw [async_decode_ok hg hdl, afterDecode_state_last_image]
      have hli := decodeLoop_last_image env.decode _ s [] s1 images hdl
      by_cases h2 : 1 < images.length
      · rw [if_pos h2]
        have hlen := decodeLoop_length env.decode _ s [] s1 images hdl
        have hne : (((timestamps (ceil_dt env.now bucketTd)).map fetch).filterMap id)
            ≠ [] := by
          intro hnil
          rw [hnil] at hlen
          simp only [List.length_nil] at hlen
          omega
        rw [(any_isSome_iff_filterMap_ne_nil _).mpr hne, Bool.or_true]
        rfl
      · rw [if_neg h2, hli, Option.isSome_or, getLast?_isSome_eq_any,
            Bool.or_comm]

lemma runSeq_isSome :
    ∀ (steps : List Step) (s : CameraState),
      (runSeq steps s).1.last_image.isSome =
        (s.last_image.isSome || (runSeq steps s).2)
  | [], s => by simp [runSeq]
  | st :: rest, s => by
    simp only [runSeq]
    rw [runSeq_isSome rest (stepState st.env st.fetch s), stepState_isSome,
        Bool.or_assoc]

lemma async_ret {env : Env} {fetch : Int → Option Bytes}
    {s : CameraState} {r : Option Bytes} {sF : CameraState}
    (h : asyncCameraImage env fetch s = .ok r sF) : r = sF.last_image := by
  by_cases hg : s.last_image_time = some (ceil_dt env.now bucketTd - bucketTd) ∧
      s.last_image ≠ none
  · rw [async_gate hg.1 hg.2] at h
    injection h with h1 h2
    rw [← h1, ← h2]
  · cases hdl : decodeLoop env.decode
        ((timestamps (ceil_dt env.now bucketTd)).map fetch) s [] with
    | error sE =>
      rw [async_decode_err hg hdl] at h
      exact absurd h (by simp)
    | ok p =>
      obtain ⟨s1, images⟩ := p
      rw [async_decode_ok hg hdl] at h
      by_cases h2 : 1 < images.length
      · by_cases heq : images.length =
            (timestamps (ceil_dt env.now bucketTd)).length
        · rw [afterDecode_full h2 heq] at h
          cases hh : ({ s1 with last_image := some (env.encode (addBars images)) }
              : CameraState).host with
          | none =>
            rw [fullCommit_nohost hh] at h
            exact absurd h (by simp)
          | some entry =>
            rw [fullCommit_host hh] at h
            injection h with h1 h2'
            rw [← h1, ← h2']
        · rw [afterDecode_partialSuccess h2 heq] at h
          injection h with h1 h2'
          rw [← h1, ← h2']
      · rw [afterDecode_le_one h2] at h
        injection h with h1 h2'
        rw [← h1, ← h2']

/-- C10: starting from the freshly constructed entity, the stored
`_last_image` is `None` exactly as long as no fetch of any invocation has
returned bytes; once set it is never reset by a later invocation; and every
normal return of `async_camera_image` returns exactly the stored
`_last_image` (so the accessor returns `None` exactly when no fetch has ever
returned bytes since construction). -/
theorem last_image_lifetime (steps : List Step) (host0 : Option HostEntry)
    (env : Env) (fetch : Int → Option Bytes) (s : CameraState)
    (r : Option Bytes) (sF : CameraState) :
    ((runSeq steps (initState host0)).1.last_image = none ↔
      (runSeq steps (initState host0)).2 = false) ∧
    (s.last_image.isSome = true →
      (stepState env fetch s).last_image.isSome = true) ∧
    (asyncCameraImage env fetch s = .ok r sF → r = sF.last_image) := by
  refine ⟨?_, ?_, fun h => async_ret h⟩
  · have h := runSeq_isSome steps (initState host0)
    rw [show (initState host0).last_image.isSome = false from rfl,
        Bool.false_or] at h
    constructor
    · intro hn
      rw [← h, hn]
      rfl
    · intro hb
      rw [hb] at h
      cases ho : (runSeq steps (initState host0)).1.last_image with
      | none => rfl
      | some b => rw [ho] at h; simp at h
  · intro hs
    rw [stepState_isSome, hs, Bool.true_or]

/-- Witness for C10: a concrete gated invocation keeps `_last_image` set,
and its normal return is exactly the stored image. -/
theorem last_image_lifetime_witness :
    (stepState env0 (fun _ => none) s0gate).last_image.isSome = true ∧
    (some [1, 2, 3] : Option Bytes) = s0gate.last_image := by
  have h := last_image_lifetime [] none env0 (fun _ => none) s0gate
      (some [1, 2, 3]) s0gate
  exact ⟨h.2.1 (by decide), h.2.2 (by decide)⟩
